import Mathlib

/-!
Shallow embedding of the oscbeat relay (src/main.py).

The program wraps the madmom DBN beat tracker and relays each detected beat
over OSC (UDP).  The repository's own code is the `main` function of
src/main.py; its relay core is the closure `outproc` (lines 106-117):

    def outproc(beats, *_):
        if beats.size > 0:
            for beat in beats:
                msg = \x7b "beat": beat,
                        "tempo": beat_processor.tempo,
                        "counter": beat_processor.counter \x7d
                print(msg)
                osc_client.send_message("/tempo/beat", json.dumps(msg))
                osc_client.send_message("/tempo/tap", 255)
                osc_client.send_message("/tempo/tap", 0)

Numeric beat timestamps and tempos are Python floats on which the program
performs no arithmetic (they are only passed through to `json.dumps`); they
are modelled as rationals.  The `print` calls are a diagnostic side channel
and are not part of the message stream, so they are not modelled.
-/

namespace Oscbeat

/-- A JSON value appearing in the beat data object: Python floats are
modelled as rationals, Python ints as integers. -/
inductive JVal where
  | float (q : ℚ)
  | int (n : ℤ)
deriving DecidableEq

/-- Left-pads a digit string with zeros up to length k, as needed to render
the fractional part of a decimal. -/
def padZeros (k : ℕ) (s : String) : String :=
  String.mk (List.replicate (k - s.length) '0') ++ s

/-- Smallest number of decimal digits that represents the fractional part
exactly: the least k ≤ 64 with den dividing 10 ^ k, if any. -/
def fracDigits (den : ℕ) : Option ℕ :=
  (List.range 65).find? (fun k => 10 ^ k % den == 0)

/-- Decimal rendering of a nonnegative rational, matching Python repr of the
corresponding float on finite-decimal values: integers get a trailing ".0"
(as 120.0), others their exact decimal expansion (as 1.2). -/
def renderNonnegFloat (q : ℚ) : String :=
  match fracDigits q.den with
  | none => toString q.num ++ "/" ++ toString q.den
  | some k =>
      if k == 0 then toString q.num ++ ".0"
      else
        let scaled : ℕ := q.num.toNat * (10 ^ k / q.den)
        toString (scaled / 10 ^ k) ++ "." ++ padZeros k (toString (scaled % 10 ^ k))

/-- Decimal rendering of a rational as Python repr renders the float. -/
def renderFloat (q : ℚ) : String :=
  if q < 0 then "-" ++ renderNonnegFloat (-q) else renderNonnegFloat q

/-- Wire text of one JSON value. -/
def renderJVal : JVal → String
  | .float q => renderFloat q
  | .int n => toString n

/-- Python json.dumps of a dict with the given insertion-ordered fields,
with the default separators: \x7b"k": v, ...\x7d . -/
def jsonDumps (obj : List (String × JVal)) : String :=
  "\x7b" ++
    String.intercalate ", "
      (obj.map (fun p => "\"" ++ p.1 ++ "\": " ++ renderJVal p.2)) ++
  "\x7d"

/-- An argument of an OSC send_message call: either one JSON string (the
beat data message) or one integer (the tap pulses). -/
inductive OscArg where
  | str (s : String)
  | int (n : ℤ)
deriving DecidableEq

/-- One OSC message as handed to osc_client.send_message: an address and a
single argument. -/
structure OscMessage where
  address : String
  arg : OscArg
deriving DecidableEq

/-- The state of beat_processor that outproc reads at emission time (its
current tempo and counter attributes, src/main.py lines 111-112). -/
structure BeatProcessorState where
  tempo : ℚ
  counter : ℤ
deriving DecidableEq

/-- The msg dict built for one beat (src/main.py lines 109-113): keys
"beat", "tempo", "counter" in insertion order, where tempo and counter are
read from the processor state. -/
def beatMsg (beat : ℚ) (st : BeatProcessorState) : List (String × JVal) :=
  [("beat", JVal.float beat),
   ("tempo", JVal.float st.tempo),
   ("counter", JVal.int st.counter)]

/-- The three send_message calls made for one beat (src/main.py lines
115-117), in program order. -/
def encodeBeat (st : BeatProcessorState) (beat : ℚ) : List OscMessage :=
  [⟨"/tempo/beat", OscArg.str (jsonDumps (beatMsg beat st))⟩,
   ⟨"/tempo/tap", OscArg.int 255⟩,
   ⟨"/tempo/tap", OscArg.int 0⟩]

/-- The outproc callback (src/main.py lines 106-117): given the chunk's
beat array and the processor state, the sequence of OSC messages sent, in
order.  The beats.size > 0 guard and the for loop are kept as written. -/
def outproc (st : BeatProcessorState) (beats : List ℚ) : List OscMessage :=
  if beats.length > 0 then beats.flatMap (encodeBeat st) else []

/-- One processing chunk: the processor state current while outproc runs,
and the beat timestamps the decoder emitted for the chunk. -/
structure Chunk where
  st : BeatProcessorState
  beats : List ℚ

/-- Messages sent for one chunk. -/
def chunkMessages (c : Chunk) : List OscMessage :=
  outproc c.st c.beats

/-- Messages sent over a run: outproc is invoked once per chunk, in chunk
order, on the single processing pipeline. -/
def runChunks (chunks : List Chunk) : List OscMessage :=
  chunks.flatMap chunkMessages

/-- Modelled from the spec: the transport (pythonosc SimpleUDPClient, an
external collaborator not under src/) is fire-and-forget UDP; each
send_message call performs exactly one local transmit attempt, whose
success or failure (ok m) is reported but never retried and never raised
into the relay loop.  The attempt log pairs each message, in send order,
with its outcome. -/
def relayAttempts (ok : OscMessage → Bool) (msgs : List OscMessage) :
    List (OscMessage × Bool) :=
  msgs.map (fun m => (m, ok m))

/-- Modelled from the spec: external cancellation of online mode (process
signal handling and the madmom chunk loop are external collaborators not
under src/) takes effect between chunks; the wire stream observed up to a
cancellation point is the message stream of a whole number of leading
chunks. -/
def cancelledRun (chunks : List Chunk) (k : ℕ) : List OscMessage :=
  runChunks (chunks.take k)

/-- The sequence of payloads sent on the /tempo/tap channel, in order. -/
def tapPayloads (msgs : List OscMessage) : List OscArg :=
  (msgs.filter (fun m => m.address == "/tempo/tap")).map (fun m => m.arg)

/-- Total number of beats across a run's chunks. -/
def totalBeats (chunks : List Chunk) : ℕ :=
  (chunks.map (fun c => c.beats.length)).sum

/-- The argparse namespace fields that src/main.py reads after parsing:
the OSC endpoint, the verbosity flag, and the frame rate fps, which the
parsed command line may have set to any value. -/
structure Args where
  ip : String
  port : ℤ
  verbose : Bool
  fps : ℤ
deriving DecidableEq

/-- The set-immutable-arguments step (src/main.py line 90): after parsing,
args.fps = 100 overwrites whatever value parsing produced. -/
def setImmutableArgs (a : Args) : Args :=
  { a with fps := 100 }

/-- The data message produced for the spec's scenario beat 1.20 with
processor tempo 120.0 and counter 4. -/
def sampleDataMsg : OscMessage :=
  ⟨"/tempo/beat",
   OscArg.str (jsonDumps [("beat", JVal.float (mkRat 6 5)),
                          ("tempo", JVal.float (mkRat 120 1)),
                          ("counter", JVal.int 4)])⟩

theorem outproc_eq_flatMap (st : BeatProcessorState) (beats : List ℚ) :
    outproc st beats = beats.flatMap (encodeBeat st) := by
  cases beats <;> simp [outproc]

theorem tapPayloads_append (xs ys : List OscMessage) :
    tapPayloads (xs ++ ys) = tapPayloads xs ++ tapPayloads ys := by
  simp [tapPayloads]

/-- C1: a beat event with timestamp >= 0, finite tempo > 0 and integer
counter >= 0 makes outproc emit exactly 3 messages, in the fixed order:
first the data message on "/tempo/beat" whose single JSON-string payload
carries the beat timestamp, tempo and counter, then "/tempo/tap" with
integer 255, then "/tempo/tap" with integer 0. -/
theorem encode_beat_three_messages (ts tempo : ℚ) (counter : ℤ)
    (h1 : 0 ≤ ts) (h2 : 0 < tempo) (h3 : 0 ≤ counter) :
    outproc ⟨tempo, counter⟩ [ts] =
      [⟨"/tempo/beat",
        OscArg.str (jsonDumps [("beat", JVal.float ts),
                               ("tempo", JVal.float tempo),
                               ("counter", JVal.int counter)])⟩,
       ⟨"/tempo/tap", OscArg.int 255⟩,
       ⟨"/tempo/tap", OscArg.int 0⟩] := by
  simp [outproc, encodeBeat, beatMsg]

/-- C1 witness: the spec scenario, beat 1.20 with tempo 120.0 and counter
4, yields exactly the three messages, the data payload being the literal
JSON text. -/
theorem encode_beat_three_messages_witness :
    (0 : ℚ) ≤ mkRat 6 5 ∧ (0 : ℚ) < mkRat 120 1 ∧ (0 : ℤ) ≤ 4 ∧
    outproc ⟨mkRat 120 1, 4⟩ [mkRat 6 5] =
      [⟨"/tempo/beat",
        OscArg.str "\x7b\"beat\": 1.2, \"tempo\": 120.0, \"counter\": 4\x7d"⟩,
       ⟨"/tempo/tap", OscArg.int 255⟩,
       ⟨"/tempo/tap", OscArg.int 0⟩] := by
  refine ⟨by decide, by decide, by decide, ?_⟩
  rw [encode_beat_three_messages (mkRat 6 5) (mkRat 120 1) 4
        (by decide) (by decide) (by decide)]
  rfl

/-- C2: for a sequence of beat events in non-decreasing timestamp order,
the emitted stream keeps their relative order: all three messages of the
beat b come as one contiguous block, after every message of the earlier
beats (pre) and before every message of the later beats (post), with no
reordering or interleaving. -/
theorem messages_preserve_beat_order (st : BeatProcessorState)
    (pre post : List ℚ) (b : ℚ)
    (hs : List.Sorted (· ≤ ·) (pre ++ b :: post)) :
    outproc st (pre ++ b :: post) =
      outproc st pre ++ encodeBeat st b ++ outproc st post := by
  simp [outproc_eq_flatMap]

/-- C2 witness: the sorted beat list [1, 2, 3] around the middle beat. -/
theorem messages_preserve_beat_order_witness :
    List.Sorted (· ≤ ·) ([mkRat 1 1] ++ mkRat 2 1 :: [mkRat 3 1]) ∧
    outproc ⟨mkRat 120 1, 4⟩ ([mkRat 1 1] ++ mkRat 2 1 :: [mkRat 3 1]) =
      outproc ⟨mkRat 120 1, 4⟩ [mkRat 1 1] ++
        encodeBeat ⟨mkRat 120 1, 4⟩ (mkRat 2 1) ++
        outproc ⟨mkRat 120 1, 4⟩ [mkRat 3 1] :=
  ⟨by decide,
   messages_preserve_beat_order ⟨mkRat 120 1, 4⟩ [mkRat 1 1] [mkRat 3 1]
     (mkRat 2 1) (by decide)⟩

/-- C3: a chunk whose beat list is empty makes outproc emit zero
messages. -/
theorem empty_beats_no_messages (st : BeatProcessorState) :
    outproc st [] = [] := rfl

/-- C4: encoding is deterministic and idempotent: a run that encodes the
same beat event twice (same timestamp, same processor tempo and counter)
emits six messages, and the first triple is byte-identical to the second,
both being encodeBeat of that event. -/
theorem encode_deterministic_idempotent (st : BeatProcessorState) (b : ℚ) :
    (runChunks [⟨st, [b]⟩, ⟨st, [b]⟩]).length = 6 ∧
    (runChunks [⟨st, [b]⟩, ⟨st, [b]⟩]).take 3 = encodeBeat st b ∧
    (runChunks [⟨st, [b]⟩, ⟨st, [b]⟩]).drop 3 = encodeBeat st b := by
  refine ⟨?_, ?_, ?_⟩ <;>
    simp [runChunks, chunkMessages, outproc, encodeBeat]

/-- C5: when the local transmit of some emitted message m fails, the relay
loop neither retries it nor halts: the attempt log still attempts every
emitted message of the run exactly once, in order, so all messages after
the failed one — including those of later beat events — are still sent. -/
theorem send_failure_no_retry_no_halt (ok : OscMessage → Bool)
    (chunks : List Chunk) (m : OscMessage)
    (hm : m ∈ runChunks chunks) (hfail : ok m = false) :
    (relayAttempts ok (runChunks chunks)).map Prod.fst = runChunks chunks ∧
    (relayAttempts ok (runChunks chunks)).length =
      (runChunks chunks).length := by
  refine ⟨?_, by simp [relayAttempts]⟩
  rw [relayAttempts, List.map_map]
  exact List.map_id _

/-- C5 witness: a run of one single-beat chunk under a transport whose
every send fails; the failing tap-high message does not stop the rest. -/
theorem send_failure_no_retry_no_halt_witness :
    (⟨"/tempo/tap", OscArg.int 255⟩ : OscMessage) ∈
      runChunks [⟨⟨mkRat 120 1, 4⟩, [mkRat 1 1]⟩] ∧
    (fun _ : OscMessage => false) ⟨"/tempo/tap", OscArg.int 255⟩ = false ∧
    ((relayAttempts (fun _ => false)
        (runChunks [⟨⟨mkRat 120 1, 4⟩, [mkRat 1 1]⟩])).map Prod.fst =
      runChunks [⟨⟨mkRat 120 1, 4⟩, [mkRat 1 1]⟩] ∧
    (relayAttempts (fun _ => false)
        (runChunks [⟨⟨mkRat 120 1, 4⟩, [mkRat 1 1]⟩])).length =
      (runChunks [⟨⟨mkRat 120 1, 4⟩, [mkRat 1 1]⟩]).length) :=
  ⟨by decide, rfl,
   send_failure_no_retry_no_halt (fun _ => false)
     [⟨⟨mkRat 120 1, 4⟩, [mkRat 1 1]⟩]
     ⟨"/tempo/tap", OscArg.int 255⟩ (by decide) rfl⟩

theorem runChunks_eq_events_flatMap (l : List Chunk) :
    runChunks l =
      (l.flatMap (fun c => c.beats.map (fun b => (c.st, b)))).flatMap
        (fun e => encodeBeat e.1 e.2) := by
  induction l with
  | nil => rfl
  | cons c cs ih =>
      simp only [runChunks, List.flatMap_cons, List.flatMap_append] at *
      rw [ih]
      simp [chunkMessages, outproc_eq_flatMap, List.flatMap_map]

/-- C6: under cancellation between chunks of an online run, the observed
wire stream is a concatenation of complete (data, high, low) triples, one
per fully relayed beat event: no split triple is ever observed. -/
theorem cancellation_no_partial_triple (chunks : List Chunk) (k : ℕ) :
    ∃ evs : List (BeatProcessorState × ℚ),
      cancelledRun chunks k =
        evs.flatMap (fun e => encodeBeat e.1 e.2) :=
  ⟨(chunks.take k).flatMap (fun c => c.beats.map (fun b => (c.st, b))),
   runChunks_eq_events_flatMap (chunks.take k)⟩

/-- C7: after argument processing, the fps field of the configuration is
100, whatever value parsing left in it. -/
theorem fps_fixed_at_100 (a : Args) : (setImmutableArgs a).fps = 100 := rfl

/-- C8: in a chunk with more than one beat, the data messages are, in
order, one per beat, and all carry the same tempo and counter — those of
the processor state current at emission time — so only the "beat" field
varies across them. -/
theorem chunk_data_messages_share_state (st : BeatProcessorState)
    (beats : List ℚ) (h : 1 < beats.length) :
    (outproc st beats).filter (fun m => m.address == "/tempo/beat") =
      beats.map (fun b =>
        ⟨"/tempo/beat",
         OscArg.str (jsonDumps [("beat", JVal.float b),
                                ("tempo", JVal.float st.tempo),
                                ("counter", JVal.int st.counter)])⟩) := by
  clear h
  rw [outproc_eq_flatMap]
  induction beats with
  | nil => rfl
  | cons b bs ih =>
      simp only [List.flatMap_cons, List.filter_append, List.map_cons]
      rw [ih]
      rfl

/-- C8 witness: a two-beat chunk with tempo 120 and counter 4. -/
theorem chunk_data_messages_share_state_witness :
    1 < ([mkRat 1 1, mkRat 2 1] : List ℚ).length ∧
    (outproc ⟨mkRat 120 1, 4⟩ [mkRat 1 1, mkRat 2 1]).filter
        (fun m => m.address == "/tempo/beat") =
      [mkRat 1 1, mkRat 2 1].map (fun b =>
        ⟨"/tempo/beat",
         OscArg.str (jsonDumps [("beat", JVal.float b),
                                ("tempo", JVal.float (mkRat 120 1)),
                                ("counter", JVal.int 4)])⟩) :=
  ⟨by decide,
   chunk_data_messages_share_state ⟨mkRat 120 1, 4⟩ [mkRat 1 1, mkRat 2 1]
     (by decide)⟩

/-- C9: every message outproc emits on "/tempo/beat" has as its payload
one single string argument, the json.dumps serialization of the map with
exactly the keys "beat", "tempo", "counter", and nothing else. -/
theorem beat_payload_single_json_string (st : BeatProcessorState)
    (beats : List ℚ) (m : OscMessage)
    (hm : m ∈ outproc st beats) (haddr : m.address = "/tempo/beat") :
    ∃ b, b ∈ beats ∧
      m.arg = OscArg.str (jsonDumps [("beat", JVal.float b),
                                     ("tempo", JVal.float st.tempo),
                                     ("counter", JVal.int st.counter)]) := by
  rw [outproc_eq_flatMap] at hm
  rw [List.mem_flatMap] at hm
  obtain ⟨b, hb, hmb⟩ := hm
  refine ⟨b, hb, ?_⟩
  simp only [encodeBeat, beatMsg, List.mem_cons, List.not_mem_nil,
    or_false] at hmb
  rcases hmb with h | h | h
  · rw [h]
  · rw [h] at haddr
    exact absurd haddr (by decide)
  · rw [h] at haddr
    exact absurd haddr (by decide)

/-- C9 witness: the data message of the scenario beat is on "/tempo/beat"
and its payload is the single JSON string over the three keys. -/
theorem beat_payload_single_json_string_witness :
    sampleDataMsg ∈ outproc ⟨mkRat 120 1, 4⟩ [mkRat 6 5] ∧
    sampleDataMsg.address = "/tempo/beat" ∧
    ∃ b, b ∈ [mkRat 6 5] ∧
      sampleDataMsg.arg =
        OscArg.str (jsonDumps [("beat", JVal.float b),
                               ("tempo", JVal.float (mkRat 120 1)),
                               ("counter", JVal.int 4)]) :=
  ⟨by decide, rfl,
   beat_payload_single_json_string ⟨mkRat 120 1, 4⟩ [mkRat 6 5]
     sampleDataMsg (by decide) rfl⟩

theorem tapPayloads_outproc (st : BeatProcessorState) (beats : List ℚ) :
    tapPayloads (outproc st beats) =
      (List.replicate beats.length [OscArg.int 255, OscArg.int 0]).flatten := by
  rw [outproc_eq_flatMap]
  induction beats with
  | nil => rfl
  | cons b bs ih =>
      rw [List.flatMap_cons, tapPayloads_append, ih]
      rfl

theorem count_tap_replicate (n : ℕ) :
    ((List.replicate n [OscArg.int 255, OscArg.int 0]).flatten).count
        (OscArg.int 255) =
      ((List.replicate n [OscArg.int 255, OscArg.int 0]).flatten).count
        (OscArg.int 0) := by
  induction n with
  | zero => rfl
  | succ k ih =>
      rw [List.replicate_succ, List.flatten_cons]
      simp only [List.count_cons, List.count_append, ih]
      rfl

/-- C10: over any run, the payload sequence on the "/tempo/tap" channel is
the alternation 255, 0, 255, 0, ... starting at 255, exactly one 255/0
pair per beat — so nothing but 255 and 0 is ever sent there, and after the
run the number of 255s equals the number of 0s. -/
theorem tap_channel_alternation (chunks : List Chunk) :
    tapPayloads (runChunks chunks) =
      (List.replicate (totalBeats chunks)
        [OscArg.int 255, OscArg.int 0]).flatten ∧
    (tapPayloads (runChunks chunks)).count (OscArg.int 255) =
      (tapPayloads (runChunks chunks)).count (OscArg.int 0) := by
  have hmain : tapPayloads (runChunks chunks) =
      (List.replicate (totalBeats chunks)
        [OscArg.int 255, OscArg.int 0]).flatten := by
    induction chunks with
    | nil => rfl
    | cons c cs ih =>
        rw [runChunks, List.flatMap_cons, tapPayloads_append]
        rw [show tapPayloads (chunkMessages c) =
              (List.replicate c.beats.length
                [OscArg.int 255, OscArg.int 0]).flatten from
            tapPayloads_outproc c.st c.beats]
        rw [show runChunks cs = cs.flatMap chunkMessages from rfl] at ih
        rw [ih,
          show totalBeats (c :: cs) = c.beats.length + totalBeats cs from by
            simp [totalBeats],
          List.replicate_add, List.flatten_append]
  exact ⟨hmain, by rw [hmain]; exact count_tap_replicate (totalBeats chunks)⟩

end Oscbeat
